import Mathlib

/-!
# Verification of the gym-tracker-telegram identity and access-control subsystem

Shallow embedding of the subsystem's source:

* the Telegram `initData` verification edge function (`verifyInitData`,
  `hmacSha256`, `constantTimeEqual`, `bytesToHex`, the identity-binding
  request handler),
* the SQL access-control procedures (`accept_workspace_invite`,
  `invite_workspace_member_by_email`, `create_workspace_with_owner`,
  `create_workspace_invite_for_coach`, `list_workspace_members`, and the
  `workspace_members` delete policy).

Machine numbers are embedded as `Nat`/`Int`/`Rat` with explicit wrap-around
where the code can overflow; JavaScript `Number` values that can be `NaN`
are embedded as `Option ℚ` (`none` = NaN).  All definitions are executable.
-/

/-! ## JavaScript numbers

A JavaScript `Number` as used by the edge function: either NaN (`none`) or a
finite value.  The handler only ever compares and subtracts these, so a
rational carrier is exact for the inputs involved. -/

/-- A JavaScript number: `none` is `NaN`, `some q` a finite value. -/
def JSNum : Type := Option ℚ

instance : DecidableEq JSNum := by unfold JSNum; infer_instance

/-- `Number.isFinite` on our carrier (infinities do not arise here). -/
def jsIsFinite : JSNum → Bool
  | none => false
  | some _ => true

/-- JavaScript `>` with possible NaN on either side: any comparison with
NaN is false. -/
def jsGt : JSNum → JSNum → Bool
  | some a, some b => a > b
  | _, _ => false

/-- Embedding of the ECMAScript `Number(string)` conversion, restricted to
the shapes relevant here: leading/trailing whitespace is ignored, the empty
remainder converts to `0`, an optional sign followed by decimal digits with
an optional fractional part converts to its value, and anything else
converts to NaN. -/
def jsDigitsVal (l : List Char) : Nat :=
  l.foldl (fun acc c => acc * 10 + (c.toNat - 48)) 0

def jsIsDigits (l : List Char) : Bool :=
  !l.isEmpty && l.all (fun c => 48 ≤ c.toNat ∧ c.toNat ≤ 57)

def jsNumberCore (l : List Char) : JSNum :=
  match l with
  | [] => some 0
  | _ =>
    let (sign, body) :=
      match l with
      | '-' :: rest => ((-1 : ℚ), rest)
      | '+' :: rest => ((1 : ℚ), rest)
      | _ => ((1 : ℚ), l)
    match body.splitOn '.' with
    | [intPart] =>
      if jsIsDigits intPart then some (sign * jsDigitsVal intPart) else none
    | [intPart, fracPart] =>
      if jsIsDigits intPart && jsIsDigits fracPart then
        some (sign * (jsDigitsVal intPart +
          (jsDigitsVal fracPart : ℚ) / (10 : ℚ) ^ fracPart.length))
      else none
    | _ => none

/-- ASCII whitespace, the only whitespace occurring in the inputs here. -/
def isWsChar (c : Char) : Bool :=
  c.toNat = 9 || c.toNat = 10 || c.toNat = 11 || c.toNat = 12 ||
    c.toNat = 13 || c.toNat = 32

/-- Leading- and trailing-whitespace removal on character lists (the
behaviour of JavaScript `trim` on the ASCII inputs involved). -/
def trimChars (l : List Char) : List Char :=
  ((l.dropWhile isWsChar).reverse.dropWhile isWsChar).reverse

def jsNumber (s : String) : JSNum :=
  jsNumberCore (trimChars s.data)

/-! ## The freshness window of `verifyInitData`

Embedding of lines 108–121 of the edge function:

```
const authDate = authDateRaw ? Number(authDateRaw) : Number.NaN;
if (!Number.isFinite(authDate)) { throw MissingOrMalformed }
if (authDate > nowSeconds + 30) { throw Future }
if (nowSeconds - authDate > maxAgeSeconds) { throw Expired }
```

`nowSeconds = Math.floor(Date.now() / 1000)` is an integer. -/

inductive FreshErr where
  | missingOrMalformed
  | future
  | expired
deriving DecidableEq, Repr

/-- The `auth_date` freshness check of `verifyInitData`, on an already
converted `auth_date` value. -/
def freshnessCheck (authDate : JSNum) (nowSeconds : ℤ) (maxAgeSeconds : JSNum) :
    Except FreshErr Unit :=
  if !jsIsFinite authDate then .error .missingOrMalformed
  else if jsGt authDate (some ((nowSeconds : ℚ) + 30)) then .error .future
  else if jsGt (match authDate with
                | some a => some ((nowSeconds : ℚ) - a)
                | none => none) maxAgeSeconds then .error .expired
  else .ok ()

/-- The raw-string front end of the check: a missing or empty (falsy)
`auth_date` parameter becomes NaN, otherwise `Number(authDateRaw)`. -/
def authDateOfRaw (authDateRaw : Option String) : JSNum :=
  match authDateRaw with
  | none => none
  | some s => if s = "" then none else jsNumber s

/-- Embedding of the handler's configuration-presence check (line 169): only
the four listed secrets are required to be present; the max-age variable is
not inspected. -/
def configCheckOk (supabaseUrl serviceRoleKey botToken passwordSecret :
    Option String) : Bool :=
  supabaseUrl.isSome && serviceRoleKey.isSome && botToken.isSome &&
    passwordSecret.isSome

/-- Embedding of `Number(Deno.env.get('TELEGRAM_AUTH_MAX_AGE_SECONDS') ?? '3600')`. -/
def maxAgeOfEnv (envValue : Option String) : JSNum :=
  jsNumber (envValue.getD "3600")

/-! ## SQL state model

Rows of the tables touched by the access-control procedures.  UUIDs are
embedded as naturals, timestamps as integers (seconds). -/

structure WorkspaceRow where
  id : Nat
  created_by : Nat
  name : String
deriving DecidableEq, Repr

structure MemberRow where
  workspace_id : Nat
  user_id : Nat
  role : String
  created_at : ℤ
deriving DecidableEq, Repr

structure InviteRow where
  id : Nat
  workspace_id : Nat
  role : String
  invite_token : String
  created_by : Nat
  expires_at : ℤ
  accepted_at : Option ℤ
  accepted_by : Option Nat
deriving DecidableEq, Repr

/-- A row of `auth.users`, as far as these procedures read it. -/
structure AuthUserRow where
  id : Nat
  email : String
deriving DecidableEq, Repr

structure DBState where
  workspaces : List WorkspaceRow
  members : List MemberRow
  invites : List InviteRow
  users : List AuthUserRow
deriving DecidableEq, Repr

/-- PostgreSQL `btrim(s)` / `trim(s)`: strip spaces from both ends. -/
def pgBtrim (s : String) : String :=
  String.mk (((s.data.dropWhile (· = ' ')).reverse.dropWhile (· = ' ')).reverse)

/-- PostgreSQL `lower` restricted to ASCII, the alphabet of the inputs
involved. -/
def pgLower (s : String) : String :=
  String.mk (s.data.map fun c =>
    if 65 ≤ c.toNat ∧ c.toNat ≤ 90 then Char.ofNat (c.toNat + 32) else c)

/-- `public.is_workspace_member` for a given caller id. -/
def is_workspace_member (s : DBState) (uid wid : Nat) : Bool :=
  s.members.any fun r => r.workspace_id == wid && r.user_id == uid

/-- `public.is_workspace_owner` for a given caller id. -/
def is_workspace_owner (s : DBState) (uid wid : Nat) : Bool :=
  s.members.any fun r =>
    r.workspace_id == wid && r.user_id == uid && r.role == "owner"

/-- The `on conflict ... do update` role expression of
`accept_workspace_invite`: keep `owner` and `coach`, otherwise take the
invite's role. -/
def acceptRatchet (oldRole inviteRole : String) : String :=
  if oldRole = "owner" then oldRole
  else if oldRole = "coach" then oldRole
  else inviteRole

/-- `insert into workspace_members ... on conflict (workspace_id, user_id)
do update set role = onConflictRole(existing role)`.  If a row with the key
exists every such row is updated, otherwise a new row is inserted. -/
def upsertMember (ms : List MemberRow) (wid uid : Nat) (insRole : String)
    (now : ℤ) (onConflictRole : String → String) : List MemberRow :=
  if ms.any (fun r => r.workspace_id == wid && r.user_id == uid) then
    ms.map fun r =>
      if r.workspace_id = wid ∧ r.user_id = uid then
        { r with role := onConflictRole r.role }
      else r
  else ms ++ [⟨wid, uid, insRole, now⟩]

/-- `select * from workspace_invites where invite_token = tok limit 1`. -/
def findInvite (invs : List InviteRow) (tok : String) : Option InviteRow :=
  invs.find? fun i => i.invite_token == tok

/-- The `update workspace_invites set accepted_at = coalesce(accepted_at,
now()), accepted_by = coalesce(accepted_by, v_uid) where id = v_invite.id`
statement of `accept_workspace_invite`, as a per-row function. -/
def acceptInvUpd (invId : Nat) (now : ℤ) (uid : Nat) (i : InviteRow) :
    InviteRow :=
  if i.id = invId then
    { i with accepted_at := some (i.accepted_at.getD now),
             accepted_by := some (i.accepted_by.getD uid) }
  else i

/-- Embedding of `public.accept_workspace_invite`.  `uid` is `auth.uid()`;
`now` is `timezone('utc', now())`.  Errors carry the raised message; the
state is unchanged on error (the transaction aborts). -/
def accept_workspace_invite (s : DBState) (uid : Option Nat)
    (inviteToken : String) (now : ℤ) : Except String (Nat × DBState) :=
  match uid with
  | none => .error "Authentication required"
  | some v_uid =>
    let v_token := pgBtrim inviteToken
    if v_token = "" then .error "Invite token is required"
    else
      match findInvite s.invites v_token with
      | none => .error "Invite not found"
      | some v_invite =>
        if v_invite.expires_at ≤ now then .error "Invite expired"
        else if v_invite.accepted_at.isSome ∧ v_invite.accepted_by ≠ some v_uid
          then .error "Invite already accepted"
        else
          let members1 := upsertMember s.members v_invite.workspace_id v_uid
            v_invite.role now (fun old => acceptRatchet old v_invite.role)
          let invites1 := s.invites.map (acceptInvUpd v_invite.id now v_uid)
          .ok (v_invite.workspace_id,
               { s with members := members1, invites := invites1 })

/-- Embedding of `public.create_workspace_with_owner`.  The id of the new
workspace (`gen_random_uuid()`) is passed explicitly. -/
def create_workspace_with_owner (s : DBState) (uid : Option Nat)
    (name : String) (newWid : Nat) (now : ℤ) :
    Except String (Nat × DBState) :=
  match uid with
  | none => .error "not authenticated"
  | some v_uid =>
    if pgBtrim name = "" then .error "workspace name is required"
    else
      .ok (newWid,
        { s with
          workspaces := s.workspaces ++ [⟨newWid, v_uid, pgBtrim name⟩],
          members := s.members ++ [⟨newWid, v_uid, "owner", now⟩] })

/-- Embedding of `public.create_workspace_invite_for_coach`.  The generated
token (`gen_random_uuid` twice) and the invite row id are passed
explicitly. -/
def create_workspace_invite_for_coach (s : DBState) (uid : Option Nat)
    (wid : Nat) (ttlHours : Option ℤ) (token : String) (newId : Nat)
    (now : ℤ) : Except String (String × DBState) :=
  match uid with
  | none => .error "Authentication required"
  | some v_uid =>
    if !is_workspace_owner s v_uid wid then
      .error "Only workspace owner can create coach invite"
    else
      let v_ttl := max 1 (min (ttlHours.getD 168) (24 * 30))
      .ok (token,
        { s with invites := s.invites ++
            [⟨newId, wid, "coach", token, v_uid, now + 3600 * v_ttl,
              none, none⟩] })

/-- Embedding of `public.invite_workspace_member_by_email`: no role ratchet,
the role is written verbatim on conflict. -/
def invite_workspace_member_by_email (s : DBState) (uid : Option Nat)
    (wid : Nat) (memberEmail memberRole : String) (now : ℤ) :
    Except String (Nat × DBState) :=
  match uid with
  | none => .error "not authenticated"
  | some v_uid =>
    if !is_workspace_owner s v_uid wid then
      .error "only workspace owners can invite members"
    else
      let normalized_email := pgLower (pgBtrim memberEmail)
      let normalized_role := pgLower (pgBtrim memberRole)
      if normalized_email = "" then .error "email is required"
      else if ¬(normalized_role = "coach" ∨ normalized_role = "member") then
        .error "invalid member role"
      else
        match s.users.find? (fun u => pgLower u.email == normalized_email) with
        | none => .error "User with this email was not found."
        | some target =>
          .ok (target.id,
            { s with members := (upsertMember s.members wid target.id
                normalized_role now (fun _ => normalized_role)) })

/-- Embedding of a `delete from workspace_members where workspace_id = wid
and user_id = target` issued by `caller`, under the
`workspace_members_delete_owners` row-level-security policy: only rows of
workspaces where the caller is an owner are visible to the delete. -/
def delete_workspace_member (s : DBState) (caller wid target : Nat) :
    DBState :=
  { s with members := s.members.filter fun r =>
      !(r.workspace_id == wid && r.user_id == target &&
        is_workspace_owner s caller r.workspace_id) }

/-! ## `list_workspace_members` -/

/-- A row of the `list_workspace_members` result set. -/
structure MemberOutRow where
  user_id : Nat
  email : String
  role : String
  created_at : ℤ
deriving DecidableEq, Repr

/-- The `case wm.role when 'owner' then 1 when 'coach' then 2 when 'member'
then 3 else 9 end` sort key. -/
def roleRank (r : String) : Nat :=
  if r = "owner" then 1 else if r = "coach" then 2
  else if r = "member" then 3 else 9

/-- Modelled from the spec: the text collation the database applies to
`order by coalesce(u.email, '')` is configuration outside this repository;
per the spec the identity label is compared case-insensitively, embedded
here as comparison of ASCII-lower-case-folded code points. -/
def ciKey (s : String) : List Nat :=
  s.data.map fun c =>
    if 65 ≤ c.toNat ∧ c.toNat ≤ 90 then c.toNat + 32 else c.toNat

/-- The composite `order by` sort key: role rank, then folded label, then
join time, compared lexicographically. -/
def memberSortKey (x : MemberOutRow) : Lex (ℕ × Lex (List ℕ × ℤ)) :=
  toLex (roleRank x.role, toLex (ciKey x.email, x.created_at))

def memberLe (x y : MemberOutRow) : Prop := memberSortKey x ≤ memberSortKey y

instance : DecidableRel memberLe := fun x y => by unfold memberLe; infer_instance

instance : IsTotal MemberOutRow memberLe :=
  ⟨fun a b => le_total (memberSortKey a) (memberSortKey b)⟩

instance : IsTrans MemberOutRow memberLe :=
  ⟨fun _ _ _ hab hbc => le_trans hab hbc⟩

/-- Embedding of `public.list_workspace_members`: authentication and
membership checks, then the workspace's membership rows left-joined with
`auth.users` (`coalesce(u.email, '')`), returned in the `order by` order
(the embedding returns one concrete such arrangement). -/
def list_workspace_members (s : DBState) (uid : Option Nat) (wid : Nat) :
    Except String (List MemberOutRow) :=
  match uid with
  | none => .error "not authenticated"
  | some v_uid =>
    if !is_workspace_member s v_uid wid then .error "not authorized"
    else
      let rows := (s.members.filter fun r => r.workspace_id == wid).map
        fun r => ⟨r.user_id,
          ((s.users.find? fun u => u.id == r.user_id).map
            AuthUserRow.email).getD "",
          r.role, r.created_at⟩
      .ok (List.insertionSort memberLe rows)

/-! ## The identity-binding request handler

Embedding of the `Deno.serve` handler body after a successful
`verifyInitData` (lines 204–266): look up `telegram_identities` by the
telegram user id, create an auth user when absent, upsert the identity row,
and re-set the auth user's password.  Auth-user ids are allocated from a
counter standing in for the provider's uuid generation. -/

/-- The claims extracted from a verified credential. -/
structure TelegramInitUser where
  id : Nat
  username : Option String
  first_name : Option String
  last_name : Option String
deriving DecidableEq, Repr

/-- `normalizeOptional`: absent or falsy values and whitespace-only strings
become null, everything else is trimmed. -/
def normalizeOptional (value : Option String) : Option String :=
  match value with
  | none => none
  | some s =>
    let normalized := trimChars s.data
    if normalized.length > 0 then some (String.mk normalized) else none

/-- A row of `telegram_identities`. -/
structure IdentityRow where
  telegram_user_id : Nat
  user_id : Nat
  username : Option String
  first_name : Option String
  last_name : Option String
  last_auth_at : ℤ
deriving DecidableEq, Repr

/-- An account at the external auth provider, as far as the handler reads
it back. -/
structure AuthAccount where
  id : Nat
  email : String
deriving DecidableEq, Repr

/-- `deriveAuthEmail` from the edge function. -/
def deriveAuthEmail (telegramUserId : Nat) : String :=
  "tg_" ++ Nat.repr telegramUserId ++ "@telegram.local"

structure BindState where
  identities : List IdentityRow
  accounts : List AuthAccount
  nextAccountId : Nat
deriving DecidableEq, Repr

/-- The identity-binding section of the request handler.  Returns the
resolved auth user id, the `isNewUser` flag and the updated state. -/
def bindTelegramIdentity (s : BindState) (tg : TelegramInitUser) (now : ℤ) :
    Nat × Bool × BindState :=
  let lookup := s.identities.find? fun r => r.telegram_user_id == tg.id
  let created : Nat × Bool × List AuthAccount × Nat :=
    match lookup with
    | some row => (row.user_id, false, s.accounts, s.nextAccountId)
    | none =>
      (s.nextAccountId, true,
       s.accounts ++ [⟨s.nextAccountId, deriveAuthEmail tg.id⟩],
       s.nextAccountId + 1)
  let userId := created.1
  let isNewUser := created.2.1
  let accounts1 := created.2.2.1
  let nextId1 := created.2.2.2
  let newRow : IdentityRow :=
    ⟨tg.id, userId, normalizeOptional tg.username,
     normalizeOptional tg.first_name, normalizeOptional tg.last_name, now⟩
  let identities1 :=
    if s.identities.any (fun r => r.telegram_user_id == tg.id) then
      s.identities.map fun r =>
        if r.telegram_user_id = tg.id then newRow else r
    else s.identities ++ [newRow]
  (userId, isNewUser, ⟨identities1, accounts1, nextId1⟩)

/-! ## C6: the creator-is-owner invariant -/

/-- The invariant: every workspace's creator holds a membership row on that
workspace with role owner. -/
def creatorIsOwner (s : DBState) : Prop :=
  ∀ w ∈ s.workspaces, ∃ m ∈ s.members,
    m.workspace_id = w.id ∧ m.user_id = w.created_by ∧ m.role = "owner"

instance : DecidablePred creatorIsOwner := fun s => by
  unfold creatorIsOwner
  infer_instance

/-- One successful call of any of the subsystem's workspace operations. -/
inductive WorkspaceStep : DBState → DBState → Prop where
  | createWorkspace (s s' : DBState) (uid : Nat) (name : String) (wid : Nat)
      (now : ℤ) (ret : Nat)
      (h : create_workspace_with_owner s (some uid) name wid now =
        .ok (ret, s')) : WorkspaceStep s s'
  | createInvite (s s' : DBState) (uid wid : Nat) (ttl : Option ℤ)
      (tokn : String) (newId : Nat) (now : ℤ) (ret : String)
      (h : create_workspace_invite_for_coach s (some uid) wid ttl tokn newId
        now = .ok (ret, s')) : WorkspaceStep s s'
  | acceptInvite (s s' : DBState) (uid : Nat) (tokn : String) (now : ℤ)
      (ret : Nat)
      (h : accept_workspace_invite s (some uid) tokn now = .ok (ret, s')) :
      WorkspaceStep s s'
  | inviteByEmail (s s' : DBState) (uid wid : Nat) (em rl : String) (now : ℤ)
      (ret : Nat)
      (h : invite_workspace_member_by_email s (some uid) wid em rl now =
        .ok (ret, s')) : WorkspaceStep s s'
  | removeMember (s : DBState) (caller wid target : Nat) :
      WorkspaceStep s (delete_workspace_member s caller wid target)

/-- States reachable by the subsystem's operations from an initial state
with empty workspace tables (the `auth.users` table is arbitrary). -/
inductive WorkspaceReachable : DBState → Prop where
  | init (us : List AuthUserRow) : WorkspaceReachable ⟨[], [], [], us⟩
  | step (s s' : DBState) (hs : WorkspaceReachable s)
      (h : WorkspaceStep s s') : WorkspaceReachable s'

/-- The same operations, with the two dangerous ones guarded: an
email-invite must not resolve to the workspace's creator, and a member
removal must not target the workspace's creator. -/
inductive WorkspaceStepSafe : DBState → DBState → Prop where
  | createWorkspace (s s' : DBState) (uid : Nat) (name : String) (wid : Nat)
      (now : ℤ) (ret : Nat)
      (h : create_workspace_with_owner s (some uid) name wid now =
        .ok (ret, s')) : WorkspaceStepSafe s s'
  | createInvite (s s' : DBState) (uid wid : Nat) (ttl : Option ℤ)
      (tokn : String) (newId : Nat) (now : ℤ) (ret : String)
      (h : create_workspace_invite_for_coach s (some uid) wid ttl tokn newId
        now = .ok (ret, s')) : WorkspaceStepSafe s s'
  | acceptInvite (s s' : DBState) (uid : Nat) (tokn : String) (now : ℤ)
      (ret : Nat)
      (h : accept_workspace_invite s (some uid) tokn now = .ok (ret, s')) :
      WorkspaceStepSafe s s'
  | inviteByEmail (s s' : DBState) (uid wid : Nat) (em rl : String) (now : ℤ)
      (ret : Nat)
      (h : invite_workspace_member_by_email s (some uid) wid em rl now =
        .ok (ret, s'))
      (hguard : ∀ w ∈ s.workspaces, w.id = wid → w.created_by ≠ ret) :
      WorkspaceStepSafe s s'
  | removeMember (s : DBState) (caller wid target : Nat)
      (hguard : ∀ w ∈ s.workspaces, w.id = wid → w.created_by ≠ target) :
      WorkspaceStepSafe s (delete_workspace_member s caller wid target)

inductive WorkspaceReachableSafe : DBState → Prop where
  | init (us : List AuthUserRow) : WorkspaceReachableSafe ⟨[], [], [], us⟩
  | step (s s' : DBState) (hs : WorkspaceReachableSafe s)
      (h : WorkspaceStepSafe s s') : WorkspaceReachableSafe s'

/-! ## C9: the member listing order -/

/-- The order stated by the spec: role rank first (owner=1, coach=2,
member=3, anything else=9), then the case-insensitively compared identity
label, then join time. -/
def claimMemberOrder (x y : MemberOutRow) : Prop :=
  roleRank x.role < roleRank y.role ∨
    (roleRank x.role = roleRank y.role ∧
      (ciKey x.email < ciKey y.email ∨
        (ciKey x.email = ciKey y.email ∧ x.created_at ≤ y.created_at)))

/-! ## SHA-256 and HMAC-SHA256

Embedding of the WebCrypto primitives the edge function calls
(`crypto.subtle` HMAC-SHA-256 per FIPS 180-4 / RFC 2104), over byte lists.
32-bit words are naturals reduced with `&&& 4294967295`. -/

def rotr32 (n x : Nat) : Nat := ((x >>> n) ||| (x <<< (32 - n))) &&& 4294967295

def sha256K : List Nat :=
  [1116352408, 1899447441, 3049323471, 3921009573, 961987163,
   1508970993, 2453635748, 2870763221, 3624381080, 310598401,
   607225278, 1426881987, 1925078388, 2162078206, 2614888103,
   3248222580, 3835390401, 4022224774, 264347078, 604807628,
   770255983, 1249150122, 1555081692, 1996064986, 2554220882,
   2821834349, 2952996808, 3210313671, 3336571891, 3584528711,
   113926993, 338241895, 666307205, 773529912, 1294757372,
   1396182291, 1695183700, 1986661051, 2177026350, 2456956037,
   2730485921, 2820302411, 3259730800, 3345764771, 3516065817,
   3600352804, 4094571909, 275423344, 430227734, 506948616,
   659060556, 883997877, 958139571, 1322822218, 1537002063,
   1747873779, 1955562222, 2024104815, 2227730452, 2361852424,
   2428436474, 2756734187, 3204031479, 3329325298]

def sha256H0 : List Nat :=
  [1779033703, 3144134277, 1013904242, 2773480762,
   1359893119, 2600822924, 528734635, 1541459225]

def schedSig0 (x : Nat) : Nat :=
  rotr32 7 x ^^^ (rotr32 18 x ^^^ (x >>> 3))

def schedSig1 (x : Nat) : Nat :=
  rotr32 17 x ^^^ (rotr32 19 x ^^^ (x >>> 10))

def roundSig0 (x : Nat) : Nat :=
  rotr32 2 x ^^^ (rotr32 13 x ^^^ rotr32 22 x)

def roundSig1 (x : Nat) : Nat :=
  rotr32 6 x ^^^ (rotr32 11 x ^^^ rotr32 25 x)

def chF (x y z : Nat) : Nat := (x &&& y) ^^^ ((x ^^^ 4294967295) &&& z)

def majF (x y z : Nat) : Nat := (x &&& y) ||| (z &&& (x ||| y))

/-- Extend a 16-word block to the 64-word message schedule. -/
def extSched : List Nat → Nat → List Nat
  | ws, 0 => ws
  | ws, k + 1 =>
    let n := ws.length
    extSched (ws ++ [(schedSig1 (ws.getD (n - 2) 0) + ws.getD (n - 7) 0 +
      schedSig0 (ws.getD (n - 15) 0) + ws.getD (n - 16) 0) &&& 4294967295]) k

def sha256Rounds : List Nat → List (Nat × Nat) → List Nat
  | [a, b, c, d, e, f, g, h0], (k, w) :: rest =>
    let t1 := (h0 + roundSig1 e + chF e f g + k + w) &&& 4294967295
    let t2 := (roundSig0 a + majF a b c) &&& 4294967295
    sha256Rounds [(t1 + t2) &&& 4294967295, a, b, c,
      (d + t1) &&& 4294967295, e, f, g] rest
  | st, _ => st

def compressBlock (h : List Nat) (block : List Nat) : List Nat :=
  List.zipWith (fun x y => (x + y) &&& 4294967295) h
    (sha256Rounds h (sha256K.zip (extSched block 48)))

/-- Big-endian bytes to 32-bit words. -/
def toWords32 : List Nat → List Nat
  | a :: b :: c :: d :: rest =>
    (((((a <<< 8) ||| b) <<< 8) ||| c) <<< 8 ||| d) :: toWords32 rest
  | _ => []

def sha256Blocks : List Nat → List Nat → List Nat
  | h, w0 :: w1 :: w2 :: w3 :: w4 :: w5 :: w6 :: w7 :: w8 :: w9 :: w10 ::
      w11 :: w12 :: w13 :: w14 :: w15 :: rest =>
    sha256Blocks (compressBlock h
      [w0, w1, w2, w3, w4, w5, w6, w7, w8, w9, w10, w11, w12, w13, w14, w15])
      rest
  | h, _ => h

def sha256Pad (msg : List Nat) : List Nat :=
  let len := msg.length
  let padLen := (64 - ((len + 9) % 64)) % 64
  msg ++ [128] ++ List.replicate padLen 0 ++
    [((8 * len) >>> 56) &&& 255, ((8 * len) >>> 48) &&& 255,
     ((8 * len) >>> 40) &&& 255, ((8 * len) >>> 32) &&& 255,
     ((8 * len) >>> 24) &&& 255, ((8 * len) >>> 16) &&& 255,
     ((8 * len) >>> 8) &&& 255, (8 * len) &&& 255]

def sha256 (msg : List Nat) : List Nat :=
  (sha256Blocks sha256H0 (toWords32 (sha256Pad msg))).flatMap
    fun w => [(w >>> 24) &&& 255, (w >>> 16) &&& 255, (w >>> 8) &&& 255,
      w &&& 255]

/-- `hmacSha256(key, value)` of the edge function: WebCrypto HMAC with the
first argument as the MAC key and the second as the signed message. -/
def hmacSha256 (key value : List Nat) : List Nat :=
  let k0 := if 64 < key.length then sha256 key else key
  let kp := k0 ++ List.replicate (64 - k0.length) 0
  sha256 ((kp.map fun b => b ^^^ 92) ++
    sha256 ((kp.map fun b => b ^^^ 54) ++ value))

/-- UTF-8 bytes of a string (all strings involved are ASCII, where the
code points are the bytes). -/
def strBytes (s : String) : List Nat := s.data.map Char.toNat

def nibbleHex (n : Nat) : Char :=
  if n < 10 then Char.ofNat (48 + n) else Char.ofNat (87 + n)

/-- `bytesToHex` of the edge function: two lower-case hex digits per
byte. -/
def bytesToHex (bytes : List Nat) : String :=
  String.mk (bytes.flatMap fun b =>
    [nibbleHex ((b / 16) % 16), nibbleHex (b % 16)])

/-- `constantTimeEqual` of the edge function, on code-unit lists: compare
lengths, then OR-accumulate the XOR of every pair. -/
def constantTimeEqual (left right : List Nat) : Bool :=
  if left.length ≠ right.length then false
  else (List.zipWith (fun a b => a ^^^ b) left right).foldl
    (fun acc d => acc ||| d) 0 == 0

/-- JavaScript `toLowerCase` restricted to ASCII (the compared strings are
hex digits and the caller-supplied hash). -/
def jsToLowerAscii (l : List Nat) : List Nat :=
  l.map fun c => if 65 ≤ c ∧ c ≤ 90 then c + 32 else c

/-- Lines 129–130 of the edge function: the hash `verifyInitData` compares
against.  The secret key is `hmacSha256('WebAppData', botToken)` — MAC key
the literal string, message the token. -/
def verifyExpectedHash (botToken canonical : List Nat) : List Nat :=
  hmacSha256 (hmacSha256 (strBytes "WebAppData") botToken) canonical

/-- Line 132 of the edge function: the signature comparison
`constantTimeEqual(expectedHash, hash.toLowerCase())`. -/
def verifySignatureCheck (botToken canonical hash : List Nat) : Bool :=
  constantTimeEqual (strBytes (bytesToHex (verifyExpectedHash botToken
    canonical))) (jsToLowerAscii hash)

/-- The claim's (spec's) secret-key formula, for comparison:
`HMAC-SHA256(key = sharedSecret, message = "WebAppData")`. -/
def specSecretKey (botToken : List Nat) : List Nat :=
  hmacSha256 botToken (strBytes "WebAppData")

/-- The claim's (spec's) expected-hash formula, for comparison:
`hex(HMAC-SHA256(key = specSecretKey, message = canonicalMessage))`. -/
def specExpectedHash (botToken canonical : List Nat) : List Nat :=
  hmacSha256 (specSecretKey botToken) canonical

/-! ## C2: the canonical message and its key order

The edge function sorts with `left.localeCompare(right)` (line 125), a
JavaScript builtin.  It is embedded here for the ASCII range following the
default (ICU root) collation: a full primary pass in which punctuation
(underscore) precedes digits, digits precede letters, and letters compare
case-insensitively; ties are broken by a tertiary pass placing lower case
before upper case.  Characters outside those classes fall back to
code-point order (no claim depends on them). -/

def lcPrimary (c : Nat) : Nat :=
  if 48 ≤ c ∧ c ≤ 57 then 2000 + (c - 48)
  else if 65 ≤ c ∧ c ≤ 90 then 3000 + 2 * (c - 65)
  else if 97 ≤ c ∧ c ≤ 122 then 3000 + 2 * (c - 97)
  else if c = 95 then 1000
  else c

def lcTertiary (c : Nat) : Nat := if 65 ≤ c ∧ c ≤ 90 then 1 else 0

/-- Byte-wise lexicographic three-way comparison. -/
def cmpNatList : List Nat → List Nat → Ordering
  | [], [] => .eq
  | [], _ :: _ => .lt
  | _ :: _, [] => .gt
  | a :: as, b :: bs =>
    if a < b then .lt else if b < a then .gt else cmpNatList as bs

/-- The `localeCompare` model on code-unit lists. -/
def localeCompare (a b : List Nat) : Ordering :=
  (cmpNatList (a.map lcPrimary) (b.map lcPrimary)).then
    (cmpNatList (a.map lcTertiary) (b.map lcTertiary))

/-- JavaScript `Array.prototype.sort` with a comparator: stable (ES2019),
each element inserted after the existing elements that do not compare
greater. -/
def insertCmp {α : Type _} (cmp : α → α → Ordering) (x : α) :
    List α → List α
  | [] => [x]
  | y :: ys =>
    if cmp y x ≠ Ordering.gt then y :: insertCmp cmp x ys else x :: y :: ys

def sortByCmp {α : Type _} (cmp : α → α → Ordering) (l : List α) : List α :=
  l.foldl (fun acc x => insertCmp cmp x acc) []

def joinWith (sep : String) : List String → String
  | [] => ""
  | [x] => x
  | x :: xs => x ++ sep ++ joinWith sep xs

/-- Lines 123–127 of the edge function: drop the `hash` field, sort the
remaining pairs by key with `localeCompare`, join as `key=value` lines. -/
def dataCheckString (params : List (String × String)) : String :=
  joinWith "\n"
    ((sortByCmp (fun p q : String × String =>
        localeCompare (strBytes p.1) (strBytes q.1))
      (params.filter fun p => p.1 ≠ "hash")).map
      fun p => p.1 ++ "=" ++ p.2)

/-- The claim's (spec's) canonical message, for comparison: identical
construction but with byte-wise lexicographic key order. -/
def specCanonicalMessage (params : List (String × String)) : String :=
  joinWith "\n"
    ((sortByCmp (fun p q : String × String =>
        cmpNatList (strBytes p.1) (strBytes q.1))
      (params.filter fun p => p.1 ≠ "hash")).map
      fun p => p.1 ++ "=" ++ p.2)

/-- Keys of real Telegram credentials: lower-case ASCII letters and
underscores. -/
def lowerKeyCode (c : Nat) : Prop := c = 95 ∨ (97 ≤ c ∧ c ≤ 122)

instance : DecidablePred lowerKeyCode := fun c => by
  unfold lowerKeyCode
  infer_instance

/-! ## Theorems: freshness window (C3) and NaN max-age (C10) -/

theorem freshnessCheck_some (a : ℚ) (now : ℤ) (m : ℚ) :
    freshnessCheck (some a) now (some m) =
      if a > (now : ℚ) + 30 then .error .future
      else if (now : ℚ) - a > m then .error .expired
      else .ok () := by
  simp [freshnessCheck, jsIsFinite, jsGt]

/-- C3: for a finite embedded timestamp, the freshness checks accept exactly
the closed interval `[now - maxAgeSeconds, now + 30]`: `now+29` and `now+30`
pass, `now+31` fails with the future-timestamp error, a timestamp exactly
`maxAgeSeconds` old passes, and one second older fails with the expired
error. -/
theorem freshness_window (a : ℚ) (now : ℤ) (m : ℚ) (hm : 0 ≤ m) :
    (freshnessCheck (some a) now (some m) = .ok () ↔
      (now : ℚ) - m ≤ a ∧ a ≤ (now : ℚ) + 30) ∧
    freshnessCheck (some ((now : ℚ) + 29)) now (some m) = .ok () ∧
    freshnessCheck (some ((now : ℚ) + 30)) now (some m) = .ok () ∧
    freshnessCheck (some ((now : ℚ) + 31)) now (some m) = .error .future ∧
    freshnessCheck (some ((now : ℚ) - m)) now (some m) = .ok () ∧
    freshnessCheck (some ((now : ℚ) - m - 1)) now (some m) = .error .expired := by
  have hiff : ∀ b : ℚ, freshnessCheck (some b) now (some m) = .ok () ↔
      (now : ℚ) - m ≤ b ∧ b ≤ (now : ℚ) + 30 := by
    intro b
    rw [freshnessCheck_some]
    split_ifs with h1 h2
    · constructor
      · intro h
        exact absurd h (by simp)
      · intro h
        linarith [h.2]
    · constructor
      · intro h
        exact absurd h (by simp)
      · intro h
        linarith [h.1]
    · constructor
      · intro _
        exact ⟨by linarith, by linarith⟩
      · intro _
        rfl
  refine ⟨hiff a, ?_, ?_, ?_, ?_, ?_⟩
  · exact (hiff _).mpr ⟨by linarith, by linarith⟩
  · exact (hiff _).mpr ⟨by linarith, by linarith⟩
  · rw [freshnessCheck_some, if_pos (by linarith)]
  · exact (hiff _).mpr ⟨by linarith, by linarith⟩
  · rw [freshnessCheck_some, if_neg (by intro h; linarith),
      if_pos (by linarith)]

/-- Witness for `freshness_window` at `a = 0`, `now = 0`, `m = 3600`. -/
theorem freshness_window_witness :
    freshnessCheck (some ((0 : ℚ) - 3600 - 1)) 0 (some 3600) =
      .error .expired :=
  (freshness_window 0 0 3600 (by norm_num)).2.2.2.2.2

/-- C10: when the configured maximum-credential-age value is present but not
a numeric string, it converts to NaN, the configuration-presence check still
passes, and the age comparison is vacuously false, so the expired error can
never occur — while the missing/malformed and future-timestamp checks still
apply. -/
theorem nan_max_age_disables_expiry (envVal : String)
    (h : jsNumber envVal = none) (url key tok sec : String) :
    configCheckOk (some url) (some key) (some tok) (some sec) = true ∧
    maxAgeOfEnv (some envVal) = none ∧
    (∀ (a : JSNum) (now : ℤ),
      freshnessCheck a now (maxAgeOfEnv (some envVal)) ≠ .error .expired) ∧
    (∀ now : ℤ,
      freshnessCheck (authDateOfRaw none) now (maxAgeOfEnv (some envVal)) =
        .error .missingOrMalformed) ∧
    (∀ (a : ℚ) (now : ℤ), a > (now : ℚ) + 30 →
      freshnessCheck (some a) now (maxAgeOfEnv (some envVal)) =
        .error .future) := by
  have hm : maxAgeOfEnv (some envVal) = none := by
    simp [maxAgeOfEnv, h]
  refine ⟨rfl, hm, ?_, ?_, ?_⟩
  · intro a now
    rw [hm]
    cases a with
    | none => simp [freshnessCheck, jsIsFinite]
    | some q =>
      simp only [freshnessCheck, jsIsFinite, jsGt, Bool.not_true,
        Bool.false_eq_true, if_false]
      split_ifs <;> simp
  · intro now
    simp [freshnessCheck, authDateOfRaw, jsIsFinite]
  · intro a now hgt
    rw [hm]
    simp only [freshnessCheck, jsIsFinite, jsGt, Bool.not_true,
      Bool.false_eq_true, if_false]
    rw [if_pos (by simpa using hgt)]

/-- Witness for `nan_max_age_disables_expiry` at the env value `"abc"`,
evaluated at a timestamp one billion seconds old. -/
theorem nan_max_age_disables_expiry_witness :
    jsNumber "abc" = none ∧
    freshnessCheck (some (-1000000000 : ℚ)) 0 (maxAgeOfEnv (some "abc")) ≠
      .error .expired :=
  ⟨by decide,
   (nan_max_age_disables_expiry "abc" (by decide) "u" "k" "t" "s").2.2.1
     (some (-1000000000 : ℚ)) 0⟩

/-! ## Helper lemmas -/

theorem list_map_id_of_mem {α : Type _} (l : List α) (f : α → α)
    (h : ∀ x ∈ l, f x = x) : l.map f = l := by
  induction l with
  | nil => rfl
  | cons a as ih =>
    simp only [List.map_cons, h a (List.mem_cons_self a as)]
    rw [ih fun x hx => h x (List.mem_cons_of_mem a hx)]

theorem find?_append_left_none {α : Type _} (p : α → Bool) (l1 l2 : List α)
    (h : l1.find? p = none) : (l1 ++ l2).find? p = l2.find? p := by
  induction l1 with
  | nil => rfl
  | cons a as ih =>
    by_cases hpa : p a = true
    · exfalso
      simp [List.find?, hpa] at h
    · have hpa' : p a = false := by simpa using hpa
      simp only [List.cons_append, List.find?, hpa'] at h ⊢
      exact ih h

/-- Success inversion for `accept_workspace_invite`. -/
theorem accept_ok_inv (s : DBState) (uid : Nat) (tok : String) (now : ℤ)
    (wid : Nat) (s' : DBState)
    (hok : accept_workspace_invite s (some uid) tok now = .ok (wid, s')) :
    ∃ inv, findInvite s.invites (pgBtrim tok) = some inv ∧
      wid = inv.workspace_id ∧
      now < inv.expires_at ∧
      (inv.accepted_at = none ∨ inv.accepted_by = some uid) ∧
      s'.members = upsertMember s.members inv.workspace_id uid inv.role now
        (fun old => acceptRatchet old inv.role) ∧
      s'.invites = s.invites.map (acceptInvUpd inv.id now uid) ∧
      s'.workspaces = s.workspaces ∧ s'.users = s.users := by
  by_cases htok : pgBtrim tok = ""
  · exfalso
    simp [accept_workspace_invite, htok] at hok
  cases hfi : findInvite s.invites (pgBtrim tok) with
  | none =>
    exfalso
    simp only [accept_workspace_invite, if_neg htok, hfi] at hok
    exact absurd hok (by simp)
  | some inv =>
    by_cases hexp : inv.expires_at ≤ now
    · exfalso
      simp only [accept_workspace_invite, if_neg htok, hfi, if_pos hexp]
        at hok
      exact absurd hok (by simp)
    by_cases hacc : inv.accepted_at.isSome = true ∧ inv.accepted_by ≠ some uid
    · exfalso
      simp only [accept_workspace_invite, if_neg htok, hfi, if_neg hexp,
        if_pos hacc] at hok
      exact absurd hok (by simp)
    · simp only [accept_workspace_invite, if_neg htok, hfi, if_neg hexp,
        if_neg hacc] at hok
      rw [Except.ok.injEq, Prod.mk.injEq] at hok
      obtain ⟨hwid, hs⟩ := hok
      refine ⟨inv, rfl, hwid.symm, lt_of_not_le hexp, ?_,
        by rw [← hs], by rw [← hs], by rw [← hs], by rw [← hs]⟩
      rcases not_and_or.mp hacc with h | h
      · exact Or.inl (Option.not_isSome_iff_eq_none.mp h)
      · exact Or.inr (not_not.mp h)

/-- Success construction for `accept_workspace_invite`. -/
theorem accept_eq_ok (s : DBState) (uid : Nat) (tok : String) (now : ℤ)
    (inv : InviteRow) (htok : pgBtrim tok ≠ "")
    (hfind : findInvite s.invites (pgBtrim tok) = some inv)
    (hexp : now < inv.expires_at)
    (hacc : inv.accepted_at = none ∨ inv.accepted_by = some uid) :
    accept_workspace_invite s (some uid) tok now =
      .ok (inv.workspace_id,
        { s with
          members := upsertMember s.members inv.workspace_id uid inv.role now
            (fun old => acceptRatchet old inv.role),
          invites := s.invites.map (acceptInvUpd inv.id now uid) }) := by
  have hcond : ¬(inv.accepted_at.isSome = true ∧ inv.accepted_by ≠ some uid) := by
    rcases hacc with h | h
    · rw [h]
      simp
    · rw [h]
      simp
  simp only [accept_workspace_invite, if_neg htok, hfind,
    if_neg (not_le.mpr hexp), if_neg hcond]

/-! ## C7: expiry boundary of `accept_workspace_invite` -/

/-- C7 (amended): once authentication, token shape and lookup succeed,
`accept_workspace_invite` fails with the Expired error exactly when
`now ≥ expires_at`; in particular a call at exactly `now = expires_at`
fails Expired, and a call strictly before `expires_at` never fails
Expired. -/
theorem acceptInvite_expired_iff (s : DBState) (u : Nat) (tok : String)
    (now : ℤ) (inv : InviteRow) (htok : pgBtrim tok ≠ "")
    (hfind : findInvite s.invites (pgBtrim tok) = some inv) :
    accept_workspace_invite s (some u) tok now = .error "Invite expired" ↔
      inv.expires_at ≤ now := by
  simp only [accept_workspace_invite, if_neg htok, hfind]
  by_cases hexp : inv.expires_at ≤ now
  · rw [if_pos hexp]
    simp [hexp]
  · rw [if_neg hexp]
    by_cases hacc : inv.accepted_at.isSome = true ∧ inv.accepted_by ≠ some u
    · rw [if_pos hacc]
      constructor
      · intro h
        rw [Except.error.injEq] at h
        exact absurd h (by decide)
      · intro h
        exact absurd h hexp
    · rw [if_neg hacc]
      constructor
      · intro h
        exact absurd h (by simp)
      · intro h
        exact absurd h hexp

/-- Witness for `acceptInvite_expired_iff` at a concrete one-invite state,
called one second after expiry. -/
theorem acceptInvite_expired_iff_witness :
    accept_workspace_invite
        ⟨[⟨1, 1, "w"⟩], [⟨1, 1, "owner", 0⟩],
         [⟨10, 1, "coach", "tok123", 1, 100, none, none⟩], []⟩
        (some 2) "tok123" 101 = .error "Invite expired" :=
  (acceptInvite_expired_iff
      ⟨[⟨1, 1, "w"⟩], [⟨1, 1, "owner", 0⟩],
       [⟨10, 1, "coach", "tok123", 1, 100, none, none⟩], []⟩
      2 "tok123" 101 ⟨10, 1, "coach", "tok123", 1, 100, none, none⟩
      (by decide) (by rfl)).mpr (by norm_num)

/-- C7 counterexample: the claim says a call made at exactly
`now = expires_at` does not fail Expired, but on the concrete state below
(invite expiring at time 100) a call at time 100 does fail Expired. -/
theorem acceptInvite_at_exact_expiry :
    accept_workspace_invite
        ⟨[⟨1, 1, "w"⟩], [⟨1, 1, "owner", 0⟩],
         [⟨10, 1, "coach", "tokx", 1, 100, none, none⟩], []⟩
        (some 2) "tokx" 100 = .error "Invite expired" ∧
    (findInvite
        [(⟨10, 1, "coach", "tokx", 1, 100, none, none⟩ : InviteRow)]
        (pgBtrim "tokx")).map InviteRow.expires_at = some 100 := by
  constructor
  · rfl
  · rfl

/-! ## C4: role ratchet of `accept_workspace_invite` -/

theorem upsertMember_mem_updated (ms : List MemberRow) (wid uid : Nat)
    (insRole : String) (now : ℤ) (f : String → String) (m : MemberRow)
    (hm : m ∈ ms) (hw : m.workspace_id = wid) (hu : m.user_id = uid) :
    ({ m with role := f m.role } : MemberRow) ∈
      upsertMember ms wid uid insRole now f := by
  unfold upsertMember
  rw [if_pos]
  · have hfm : (fun r : MemberRow =>
        if r.workspace_id = wid ∧ r.user_id = uid then
          { r with role := f r.role } else r) m =
        ({ m with role := f m.role } : MemberRow) := by
      dsimp only
      rw [if_pos ⟨hw, hu⟩]
    exact hfm ▸ List.mem_map_of_mem _ hm
  · exact List.any_eq_true.mpr ⟨m, hm, by simp [hw, hu]⟩

/-- C4: accepting an invite never reduces an existing owner or coach
membership: for every successful `accept_workspace_invite` call whose
caller already holds a membership row with role owner or coach on the
invite's workspace, the identical row (same role) is still present
afterwards; if the existing role is any other value, the row's role is set
to the invite's role. -/
theorem acceptInvite_role_ratchet (s : DBState) (uid : Nat) (tok : String)
    (now : ℤ) (wid : Nat) (s' : DBState) (inv : InviteRow) (m : MemberRow)
    (hfind : findInvite s.invites (pgBtrim tok) = some inv)
    (hok : accept_workspace_invite s (some uid) tok now = .ok (wid, s'))
    (hm : m ∈ s.members) (hw : m.workspace_id = wid) (hu : m.user_id = uid) :
    ((m.role = "owner" ∨ m.role = "coach") → m ∈ s'.members) ∧
    (m.role ≠ "owner" → m.role ≠ "coach" →
      ({ m with role := inv.role } : MemberRow) ∈ s'.members) := by
  obtain ⟨inv2, hfind2, hwid, _, _, hmembers, _, _, _⟩ :=
    accept_ok_inv s uid tok now wid s' hok
  rw [hfind] at hfind2
  have hinv : inv = inv2 := Option.some.inj hfind2
  subst hinv
  have hw2 : m.workspace_id = inv.workspace_id := by rw [hw, hwid]
  constructor
  · intro hrole
    have h1 := upsertMember_mem_updated s.members inv.workspace_id uid
      inv.role now (fun old => acceptRatchet old inv.role) m hm hw2 hu
    dsimp only at h1
    have h2 : acceptRatchet m.role inv.role = m.role := by
      unfold acceptRatchet
      rcases hrole with h | h <;> simp [h]
    rw [h2] at h1
    have h3 : ({ m with role := m.role } : MemberRow) = m := rfl
    rw [h3] at h1
    rw [hmembers]
    exact h1
  · intro ho hc
    have h1 := upsertMember_mem_updated s.members inv.workspace_id uid
      inv.role now (fun old => acceptRatchet old inv.role) m hm hw2 hu
    dsimp only at h1
    have h2 : acceptRatchet m.role inv.role = inv.role := by
      unfold acceptRatchet
      rw [if_neg ho, if_neg hc]
    rw [h2] at h1
    rw [hmembers]
    exact h1

/-- Witness for `acceptInvite_role_ratchet`: an owner accepting a coach
invite on their own workspace keeps the owner row. -/
theorem acceptInvite_role_ratchet_witness :
    ((⟨1, 7, "owner", 0⟩ : MemberRow).role = "owner" ∨
      (⟨1, 7, "owner", 0⟩ : MemberRow).role = "coach") ∧
    (⟨1, 7, "owner", 0⟩ : MemberRow) ∈
      (DBState.members
        ⟨[⟨1, 7, "w"⟩],
         [(⟨1, 7, "owner", 0⟩ : MemberRow)],
         [⟨10, 1, "coach", "tk", 7, 100, some 50, some 7⟩], []⟩) := by
  refine ⟨Or.inl rfl, ?_⟩
  have h := (acceptInvite_role_ratchet
    ⟨[⟨1, 7, "w"⟩], [⟨1, 7, "owner", 0⟩],
     [⟨10, 1, "coach", "tk", 7, 100, none, none⟩], []⟩
    7 "tk" 50 1
    ⟨[⟨1, 7, "w"⟩], [⟨1, 7, "owner", 0⟩],
     [⟨10, 1, "coach", "tk", 7, 100, some 50, some 7⟩], []⟩
    ⟨10, 1, "coach", "tk", 7, 100, none, none⟩
    ⟨1, 7, "owner", 0⟩
    (by rfl) (by rfl) (by simp) rfl rfl).1 (Or.inl rfl)
  exact h

/-! ## C5: single-use behaviour of invite tokens -/

theorem acceptRatchet_idem (r x : String) :
    acceptRatchet (acceptRatchet r x) x = acceptRatchet r x := by
  unfold acceptRatchet
  split_ifs <;> simp_all

theorem upsertMember_key_exists (ms : List MemberRow) (wid uid : Nat)
    (insRole : String) (now : ℤ) (f : String → String) :
    (upsertMember ms wid uid insRole now f).any
      (fun x => x.workspace_id == wid && x.user_id == uid) = true := by
  unfold upsertMember
  split_ifs with h
  · obtain ⟨m, hm, hkey⟩ := List.any_eq_true.mp h
    apply List.any_eq_true.mpr
    refine ⟨_, List.mem_map_of_mem _ hm, ?_⟩
    dsimp only
    split_ifs with hc
    · simpa using hkey
    · simpa using hkey
  · apply List.any_eq_true.mpr
    exact ⟨⟨wid, uid, insRole, now⟩, by simp, by simp⟩

theorem upsertMember_ratchet_stable (ms : List MemberRow) (wid uid : Nat)
    (invRole : String) (now : ℤ) (x : MemberRow)
    (hx : x ∈ upsertMember ms wid uid invRole now
      (fun old => acceptRatchet old invRole))
    (hxw : x.workspace_id = wid) (hxu : x.user_id = uid) :
    acceptRatchet x.role invRole = x.role := by
  unfold upsertMember at hx
  split_ifs at hx with h
  · obtain ⟨r, hr, hrx⟩ := List.mem_map.mp hx
    dsimp only at hrx
    split_ifs at hrx with hc
    · rw [← hrx]
      exact acceptRatchet_idem r.role invRole
    · exfalso
      rw [← hrx] at hxw hxu
      exact hc ⟨hxw, hxu⟩
  · rcases List.mem_append.mp hx with h1 | h1
    · exfalso
      exact h (List.any_eq_true.mpr ⟨x, h1, by simp [hxw, hxu]⟩)
    · have hx2 : x = ⟨wid, uid, invRole, now⟩ := by simpa using h1
      rw [hx2]
      unfold acceptRatchet
      split_ifs <;> rfl

theorem upsertMember_stable (ms : List MemberRow) (wid uid : Nat)
    (insRole : String) (now : ℤ) (f : String → String)
    (hany : ms.any (fun r => r.workspace_id == wid && r.user_id == uid) = true)
    (hstable : ∀ x ∈ ms, x.workspace_id = wid → x.user_id = uid →
      f x.role = x.role) :
    upsertMember ms wid uid insRole now f = ms := by
  unfold upsertMember
  rw [if_pos hany]
  apply list_map_id_of_mem
  intro x hx
  dsimp only
  split_ifs with hc
  · rw [hstable x hx hc.1 hc.2]
  · rfl

theorem upsertMember_accept_idem (ms : List MemberRow) (wid uid : Nat)
    (invRole : String) (now1 now2 : ℤ) :
    upsertMember
      (upsertMember ms wid uid invRole now1
        (fun old => acceptRatchet old invRole))
      wid uid invRole now2 (fun old => acceptRatchet old invRole) =
    upsertMember ms wid uid invRole now1
      (fun old => acceptRatchet old invRole) :=
  upsertMember_stable _ wid uid invRole now2 _
    (upsertMember_key_exists ms wid uid invRole now1 _)
    (fun x hx hw hu =>
      upsertMember_ratchet_stable ms wid uid invRole now1 x hx hw hu)

theorem findInvite_map_pres (invs : List InviteRow) (tok : String)
    (g : InviteRow → InviteRow)
    (hg : ∀ i, (g i).invite_token = i.invite_token) :
    findInvite (invs.map g) tok = (findInvite invs tok).map g := by
  unfold findInvite
  rw [List.find?_map]
  have hpg : ((fun i : InviteRow => i.invite_token == tok) ∘ g) =
      (fun i : InviteRow => i.invite_token == tok) := by
    funext i
    simp only [Function.comp_apply, hg i]
  rw [hpg]

theorem invite_coalesce_id (x : InviteRow) (now : ℤ) (uid : Nat) (a : ℤ)
    (b : Nat) (ha : x.accepted_at = some a) (hb : x.accepted_by = some b) :
    ({ x with accepted_at := some (x.accepted_at.getD now),
              accepted_by := some (x.accepted_by.getD uid) } : InviteRow)
      = x := by
  cases x
  simp_all

theorem acceptInvUpd_token (invId : Nat) (now : ℤ) (uid : Nat)
    (i : InviteRow) : (acceptInvUpd invId now uid i).invite_token =
      i.invite_token := by
  unfold acceptInvUpd
  split_ifs <;> rfl

theorem acceptInvUpd_id (invId : Nat) (now : ℤ) (uid : Nat) (i : InviteRow) :
    (acceptInvUpd invId now uid i).id = i.id := by
  unfold acceptInvUpd
  split_ifs <;> rfl

theorem acceptInvUpd_of_some (invId : Nat) (now : ℤ) (uid : Nat)
    (i : InviteRow) (a : ℤ) (b : Nat) (ha : i.accepted_at = some a)
    (hb : i.accepted_by = some b) : acceptInvUpd invId now uid i = i := by
  unfold acceptInvUpd
  split_ifs with h
  · exact invite_coalesce_id i now uid a b ha hb
  · rfl

theorem acceptInvUpd_fresh (now : ℤ) (uid : Nat) (i : InviteRow)
    (ha : i.accepted_at = none) (hb : i.accepted_by = none) :
    acceptInvUpd i.id now uid i =
      { i with accepted_at := some now, accepted_by := some uid } := by
  unfold acceptInvUpd
  rw [if_pos rfl, ha, hb]
  rfl

theorem acceptInvUpd_restamp_id (invId : Nat) (now1 now2 : ℤ) (uid1 uid2 : Nat)
    (j : InviteRow) :
    acceptInvUpd invId now2 uid2 (acceptInvUpd invId now1 uid1 j) =
      acceptInvUpd invId now1 uid1 j := by
  by_cases hij : j.id = invId
  · apply acceptInvUpd_of_some invId now2 uid2 _ (j.accepted_at.getD now1)
      (j.accepted_by.getD uid1)
    · unfold acceptInvUpd
      rw [if_pos hij]
    · unfold acceptInvUpd
      rw [if_pos hij]
  · have hj : acceptInvUpd invId now1 uid1 j = j := by
      unfold acceptInvUpd
      rw [if_neg hij]
    rw [hj]
    unfold acceptInvUpd
    rw [if_neg hij]

/-- C5: an invite token is single-use in effect.  For an unexpired invite
not yet accepted, first accepted by account `A`: a second call with the
same token by `A` succeeds as a no-op — it returns the same workspace id
and leaves the state, hence the membership rows and the invite's
`accepted_at`/`accepted_by`, entirely unchanged — while a call with that
token by any distinct account `B` fails with the already-accepted error. -/
theorem acceptInvite_single_use (s : DBState) (A B : Nat) (tok : String)
    (now1 now2 : ℤ) (inv : InviteRow)
    (htok : pgBtrim tok ≠ "")
    (hfind : findInvite s.invites (pgBtrim tok) = some inv)
    (hna : inv.accepted_at = none) (hnb : inv.accepted_by = none)
    (hexp1 : now1 < inv.expires_at) (hexp2 : now2 < inv.expires_at)
    (hAB : B ≠ A) :
    ∃ s1 : DBState,
      accept_workspace_invite s (some A) tok now1 =
        .ok (inv.workspace_id, s1) ∧
      accept_workspace_invite s1 (some A) tok now2 =
        .ok (inv.workspace_id, s1) ∧
      accept_workspace_invite s1 (some B) tok now2 =
        .error "Invite already accepted" := by
  refine ⟨{ s with
      members := upsertMember s.members inv.workspace_id A inv.role now1
        (fun old => acceptRatchet old inv.role),
      invites := s.invites.map (acceptInvUpd inv.id now1 A) }, ?_, ?_, ?_⟩
  · exact accept_eq_ok s A tok now1 inv htok hfind hexp1 (Or.inl hna)
  · have hfind1 : findInvite (s.invites.map (acceptInvUpd inv.id now1 A))
        (pgBtrim tok) =
        some ({ inv with accepted_at := some now1, accepted_by := some A }
          : InviteRow) := by
      rw [findInvite_map_pres _ _ _ (acceptInvUpd_token inv.id now1 A), hfind,
        Option.map_some', acceptInvUpd_fresh now1 A inv hna hnb]
    have h2 := accept_eq_ok
      { s with
        members := upsertMember s.members inv.workspace_id A inv.role now1
          (fun old => acceptRatchet old inv.role),
        invites := s.invites.map (acceptInvUpd inv.id now1 A) }
      A tok now2
      ({ inv with accepted_at := some now1, accepted_by := some A })
      htok hfind1 hexp2 (Or.inr rfl)
    rw [h2, Except.ok.injEq, Prod.mk.injEq]
    refine ⟨rfl, ?_⟩
    rw [DBState.mk.injEq]
    refine ⟨rfl, ?_, ?_, rfl⟩
    · exact upsertMember_accept_idem s.members inv.workspace_id A inv.role
        now1 now2
    · dsimp only
      apply list_map_id_of_mem
      intro x hx
      obtain ⟨j, hj, rfl⟩ := List.mem_map.mp hx
      exact acceptInvUpd_restamp_id inv.id now1 now2 A A j
  · have hfind1 : findInvite (s.invites.map (acceptInvUpd inv.id now1 A))
        (pgBtrim tok) =
        some ({ inv with accepted_at := some now1, accepted_by := some A }
          : InviteRow) := by
      rw [findInvite_map_pres _ _ _ (acceptInvUpd_token inv.id now1 A), hfind,
        Option.map_some', acceptInvUpd_fresh now1 A inv hna hnb]
    simp only [accept_workspace_invite, if_neg htok, hfind1]
    rw [if_neg (not_le.mpr hexp2), if_pos]
    constructor
    · rfl
    · intro h
      exact hAB (Option.some.inj h).symm

/-- Witness for `acceptInvite_single_use` on a concrete one-invite state:
account 2 accepts twice, account 3 is rejected. -/
theorem acceptInvite_single_use_witness :
    ∃ s1 : DBState,
      accept_workspace_invite
          ⟨[⟨1, 7, "w"⟩], [⟨1, 7, "owner", 0⟩],
           [⟨10, 1, "coach", "tk", 7, 100, none, none⟩], []⟩
          (some 2) "tk" 10 = .ok (1, s1) ∧
      accept_workspace_invite s1 (some 2) "tk" 20 = .ok (1, s1) ∧
      accept_workspace_invite s1 (some 3) "tk" 20 =
        .error "Invite already accepted" :=
  acceptInvite_single_use
    ⟨[⟨1, 7, "w"⟩], [⟨1, 7, "owner", 0⟩],
     [⟨10, 1, "coach", "tk", 7, 100, none, none⟩], []⟩
    2 3 "tk" 10 20 ⟨10, 1, "coach", "tk", 7, 100, none, none⟩
    (by decide) rfl rfl rfl (by norm_num) (by norm_num) (by norm_num)

/-- Success inversion for `create_workspace_with_owner`. -/
theorem createWorkspace_ok_inv (s : DBState) (uid : Nat) (name : String)
    (wid : Nat) (now : ℤ) (ret : Nat) (s' : DBState)
    (hok : create_workspace_with_owner s (some uid) name wid now =
      .ok (ret, s')) :
    ret = wid ∧
    s' = { s with
      workspaces := s.workspaces ++ [⟨wid, uid, pgBtrim name⟩],
      members := s.members ++ [⟨wid, uid, "owner", now⟩] } := by
  by_cases hname : pgBtrim name = ""
  · exfalso
    simp only [create_workspace_with_owner, if_pos hname] at hok
    exact absurd hok (by simp)
  · simp only [create_workspace_with_owner, if_neg hname] at hok
    rw [Except.ok.injEq, Prod.mk.injEq] at hok
    exact ⟨hok.1.symm, hok.2.symm⟩

/-- Success inversion for `create_workspace_invite_for_coach`. -/
theorem createInvite_ok_inv (s : DBState) (uid wid : Nat) (ttl : Option ℤ)
    (tokn : String) (newId : Nat) (now : ℤ) (ret : String) (s' : DBState)
    (hok : create_workspace_invite_for_coach s (some uid) wid ttl tokn newId
      now = .ok (ret, s')) :
    s'.workspaces = s.workspaces ∧ s'.members = s.members ∧
    s'.users = s.users := by
  by_cases howner : is_workspace_owner s uid wid
  · simp only [create_workspace_invite_for_coach, howner] at hok
    simp only [Bool.not_true, Bool.false_eq_true, if_false] at hok
    rw [Except.ok.injEq, Prod.mk.injEq] at hok
    rw [← hok.2]
    exact ⟨rfl, rfl, rfl⟩
  · exfalso
    simp only [create_workspace_invite_for_coach,
      Bool.not_eq_true] at hok
    rw [if_pos (by simpa using howner)] at hok
    exact absurd hok (by simp)

/-- Success inversion for `invite_workspace_member_by_email`. -/
theorem inviteByEmail_ok_inv (s : DBState) (uid wid : Nat)
    (em rl : String) (now : ℤ) (ret : Nat) (s' : DBState)
    (hok : invite_workspace_member_by_email s (some uid) wid em rl now =
      .ok (ret, s')) :
    ∃ target, s.users.find?
        (fun u => pgLower u.email == pgLower (pgBtrim em)) = some target ∧
      ret = target.id ∧
      s'.members = upsertMember s.members wid target.id
        (pgLower (pgBtrim rl)) now (fun _ => pgLower (pgBtrim rl)) ∧
      s'.workspaces = s.workspaces ∧ s'.invites = s.invites ∧
      s'.users = s.users := by
  by_cases howner : is_workspace_owner s uid wid
  all_goals
    simp only [invite_workspace_member_by_email, howner, Bool.not_true,
      Bool.not_false, Bool.false_eq_true, if_false, if_true] at hok
  · by_cases hem : pgLower (pgBtrim em) = ""
    · exfalso
      rw [if_pos hem] at hok
      exact absurd hok (by simp)
    rw [if_neg hem] at hok
    by_cases hrl : pgLower (pgBtrim rl) = "coach" ∨ pgLower (pgBtrim rl) = "member"
    · rw [if_neg (not_not.mpr hrl)] at hok
      cases hfind : s.users.find?
          (fun u => pgLower u.email == pgLower (pgBtrim em)) with
      | none =>
        exfalso
        rw [hfind] at hok
        exact absurd hok (by simp)
      | some target =>
        rw [hfind] at hok
        rw [Except.ok.injEq, Prod.mk.injEq] at hok
        refine ⟨target, rfl, hok.1.symm, ?_, ?_, ?_, ?_⟩ <;> rw [← hok.2]
    · exfalso
      rw [if_pos hrl] at hok
      exact absurd hok (by simp)
  · exact absurd hok (by simp)

theorem upsertMember_preserves_owner (ms : List MemberRow) (wid uid : Nat)
    (invRole : String) (now : ℤ) (m : MemberRow) (hm : m ∈ ms) :
    ∃ m' ∈ upsertMember ms wid uid invRole now
        (fun old => acceptRatchet old invRole),
      m'.workspace_id = m.workspace_id ∧ m'.user_id = m.user_id ∧
      (m.role = "owner" → m'.role = "owner") := by
  unfold upsertMember
  split_ifs with h
  · refine ⟨_, List.mem_map_of_mem _ hm, ?_⟩
    dsimp only
    split_ifs with hc
    · refine ⟨rfl, rfl, ?_⟩
      intro ho
      simp [acceptRatchet, ho]
    · exact ⟨rfl, rfl, fun ho => ho⟩
  · exact ⟨m, List.mem_append_left _ hm, rfl, rfl, fun ho => ho⟩

theorem upsertMember_preserves_nonkey (ms : List MemberRow) (wid uid : Nat)
    (insRole : String) (now : ℤ) (f : String → String) (m : MemberRow)
    (hm : m ∈ ms) (h : ¬(m.workspace_id = wid ∧ m.user_id = uid)) :
    m ∈ upsertMember ms wid uid insRole now f := by
  unfold upsertMember
  split_ifs with hany
  · have hfm : (fun r : MemberRow =>
        if r.workspace_id = wid ∧ r.user_id = uid then
          { r with role := f r.role } else r) m = m := by
      dsimp only
      rw [if_neg h]
    exact hfm ▸ List.mem_map_of_mem _ hm
  · exact List.mem_append_left _ hm

/-- C6 (amended): a workspace's creator holds role owner in every state
reachable by `createWorkspaceWithOwner`, `createInvite` and `acceptInvite`,
and by `inviteByEmail` calls whose invitee does not resolve to the
workspace's creator and member removals that do not target the creator.
(Without those two provisos the invariant fails, see the
counterexample.) -/
theorem creator_is_owner_safe (s : DBState)
    (h : WorkspaceReachableSafe s) : creatorIsOwner s := by
  induction h with
  | init us =>
    intro w hw
    exact absurd hw (List.not_mem_nil w)
  | step s s' hs hstep ih =>
    cases hstep with
    | createWorkspace _ uid name wid now ret hok =>
      obtain ⟨-, hs'⟩ := createWorkspace_ok_inv s uid name wid now ret s' hok
      subst hs'
      intro w hw
      rcases List.mem_append.mp hw with hw1 | hw1
      · obtain ⟨m, hm, hprops⟩ := ih w hw1
        exact ⟨m, List.mem_append_left _ hm, hprops⟩
      · have hw2 : w = ⟨wid, uid, pgBtrim name⟩ := by simpa using hw1
        subst hw2
        exact ⟨⟨wid, uid, "owner", now⟩,
          List.mem_append_right _ (by simp), rfl, rfl, rfl⟩
    | createInvite _ uid wid ttl tokn newId now ret hok =>
      obtain ⟨hW, hM, -⟩ :=
        createInvite_ok_inv s uid wid ttl tokn newId now ret s' hok
      intro w hw
      rw [hW] at hw
      obtain ⟨m, hm, hp⟩ := ih w hw
      exact ⟨m, by rw [hM]; exact hm, hp⟩
    | acceptInvite _ uid tokn now ret hok =>
      obtain ⟨inv, -, -, -, -, hM, -, hW, -⟩ :=
        accept_ok_inv s uid tokn now ret s' hok
      intro w hw
      rw [hW] at hw
      obtain ⟨m, hm, hp1, hp2, hp3⟩ := ih w hw
      obtain ⟨m', hm', hq1, hq2, hq3⟩ := upsertMember_preserves_owner
        s.members inv.workspace_id uid inv.role now m hm
      rw [hM]
      exact ⟨m', hm', by rw [hq1, hp1], by rw [hq2, hp2], hq3 hp3⟩
    | inviteByEmail _ uid wid em rl now ret hok hguard =>
      obtain ⟨target, hfind, hret, hM, hW, -, -⟩ :=
        inviteByEmail_ok_inv s uid wid em rl now ret s' hok
      intro w hw
      rw [hW] at hw
      obtain ⟨m, hm, hp1, hp2, hp3⟩ := ih w hw
      have hkey : ¬(m.workspace_id = wid ∧ m.user_id = target.id) := by
        rintro ⟨h1, h2⟩
        exact hguard w hw (by rw [← hp1, h1])
          (by rw [hret, ← h2, hp2])
      rw [hM]
      exact ⟨m, upsertMember_preserves_nonkey s.members wid target.id
        (pgLower (pgBtrim rl)) now _ m hm hkey, hp1, hp2, hp3⟩
    | removeMember caller wid target hguard =>
      intro w hw
      have hw0 : w ∈ s.workspaces := hw
      obtain ⟨m, hm, hp1, hp2, hp3⟩ := ih w hw0
      refine ⟨m, ?_, hp1, hp2, hp3⟩
      show m ∈ (s.members.filter fun r =>
        !(r.workspace_id == wid && r.user_id == target &&
          is_workspace_owner s caller r.workspace_id))
      refine List.mem_filter.mpr ⟨hm, ?_⟩
      by_cases hcase : m.workspace_id = wid ∧ m.user_id = target
      · exfalso
        apply hguard w hw0 (by rw [← hp1, hcase.1])
        rw [← hp2, hcase.2]
      · have hfalse : (m.workspace_id == wid && m.user_id == target) = false := by
          rcases not_and_or.mp hcase with h | h <;> simp [h]
        simp [hfalse]

/-- Witness for `creator_is_owner_safe`: after a concrete workspace
creation the creator holds the owner row. -/
theorem creator_is_owner_safe_witness :
    creatorIsOwner ⟨[⟨1, 7, "w"⟩], [⟨1, 7, "owner", 0⟩], [], [⟨7, "a@x"⟩]⟩ :=
  creator_is_owner_safe _
    (WorkspaceReachableSafe.step _ _
      (WorkspaceReachableSafe.init [⟨7, "a@x"⟩])
      (WorkspaceStepSafe.createWorkspace _ _ 7 "w" 1 0 1 rfl))

/-- C6 counterexample: the creator-is-owner invariant fails on reachable
states.  User 7 creates workspace 1, then (a) email-invites their own
account with role member — the creator's row is demoted to member — or
(b) deletes their own membership row — the creator has no row at all. -/
theorem creator_owner_counterexample :
    (WorkspaceReachable
        ⟨[⟨1, 7, "w"⟩], [⟨1, 7, "member", 0⟩], [], [⟨7, "a@x"⟩]⟩ ∧
      decide (creatorIsOwner
        ⟨[⟨1, 7, "w"⟩], [⟨1, 7, "member", 0⟩], [], [⟨7, "a@x"⟩]⟩) = false) ∧
    (WorkspaceReachable ⟨[⟨1, 7, "w"⟩], [], [], [⟨7, "a@x"⟩]⟩ ∧
      decide (creatorIsOwner
        ⟨[⟨1, 7, "w"⟩], [], [], [⟨7, "a@x"⟩]⟩) = false) := by
  have h1 : WorkspaceReachable
      ⟨[⟨1, 7, "w"⟩], [⟨1, 7, "owner", 0⟩], [], [⟨7, "a@x"⟩]⟩ :=
    WorkspaceReachable.step _ _ (WorkspaceReachable.init [⟨7, "a@x"⟩])
      (WorkspaceStep.createWorkspace _ _ 7 "w" 1 0 1 rfl)
  refine ⟨⟨?_, ?_⟩, ?_, ?_⟩
  · exact WorkspaceReachable.step _ _ h1
      (WorkspaceStep.inviteByEmail _ _ 7 1 "a@x" "member" 5 7 rfl)
  · decide
  · exact WorkspaceReachable.step _ _ h1
      (WorkspaceStep.removeMember _ 7 1 7)
  · decide

/-! ## C8: idempotent identity binding -/

/-- C8: binding twice for the same external id gives `isNewAccount = true`
then `false` with the same account id; the second call creates no new
account and returns the id stored in the identity row written by the first
call. -/
theorem bind_twice_idempotent (s : BindState) (tg : TelegramInitUser)
    (now1 now2 : ℤ)
    (h : s.identities.find? (fun r => r.telegram_user_id == tg.id) = none) :
    (bindTelegramIdentity s tg now1).2.1 = true ∧
    (bindTelegramIdentity
        (bindTelegramIdentity s tg now1).2.2 tg now2).2.1 = false ∧
    (bindTelegramIdentity
        (bindTelegramIdentity s tg now1).2.2 tg now2).1 =
      (bindTelegramIdentity s tg now1).1 ∧
    (bindTelegramIdentity
        (bindTelegramIdentity s tg now1).2.2 tg now2).2.2.accounts =
      (bindTelegramIdentity s tg now1).2.2.accounts ∧
    ((bindTelegramIdentity s tg now1).2.2.identities.find?
        (fun r => r.telegram_user_id == tg.id)).map IdentityRow.user_id =
      some (bindTelegramIdentity s tg now1).1 := by
  have hany : (s.identities.any fun r => r.telegram_user_id == tg.id)
      = false := by
    cases hx : s.identities.any fun r => r.telegram_user_id == tg.id
    · rfl
    · obtain ⟨x, hxm, hxp⟩ := List.any_eq_true.mp hx
      exact absurd hxp (by simpa using List.find?_eq_none.mp h x hxm)
  have h1 : bindTelegramIdentity s tg now1 =
      (s.nextAccountId, true,
       ⟨s.identities ++
          [⟨tg.id, s.nextAccountId, normalizeOptional tg.username,
            normalizeOptional tg.first_name, normalizeOptional tg.last_name,
            now1⟩],
        s.accounts ++ [⟨s.nextAccountId, deriveAuthEmail tg.id⟩],
        s.nextAccountId + 1⟩) := by
    unfold bindTelegramIdentity
    rw [h, hany]
    simp
  have hfind2 : (s.identities ++
      [(⟨tg.id, s.nextAccountId, normalizeOptional tg.username,
        normalizeOptional tg.first_name, normalizeOptional tg.last_name,
        now1⟩ : IdentityRow)]).find?
      (fun r => r.telegram_user_id == tg.id) =
      some ⟨tg.id, s.nextAccountId, normalizeOptional tg.username,
        normalizeOptional tg.first_name, normalizeOptional tg.last_name,
        now1⟩ := by
    rw [find?_append_left_none _ _ _ h]
    simp [List.find?]
  have h2 : (bindTelegramIdentity
      (bindTelegramIdentity s tg now1).2.2 tg now2).2.1 = false ∧
      (bindTelegramIdentity
        (bindTelegramIdentity s tg now1).2.2 tg now2).1 = s.nextAccountId ∧
      (bindTelegramIdentity
        (bindTelegramIdentity s tg now1).2.2 tg now2).2.2.accounts =
        s.accounts ++ [⟨s.nextAccountId, deriveAuthEmail tg.id⟩] := by
    rw [h1]
    unfold bindTelegramIdentity
    rw [hfind2]
    simp
  refine ⟨by rw [h1], h2.1, ?_, ?_, ?_⟩
  · rw [h2.2.1, h1]
  · rw [h2.2.2, h1]
  · rw [h1]
    rw [hfind2]
    rfl

/-- Witness for `bind_twice_idempotent` at telegram user 555 on the empty
state. -/
theorem bind_twice_idempotent_witness :
    (bindTelegramIdentity ⟨[], [], 0⟩ ⟨555, some "alice", none, none⟩
        10).2.1 = true ∧
    (bindTelegramIdentity
        (bindTelegramIdentity ⟨[], [], 0⟩ ⟨555, some "alice", none, none⟩
          10).2.2 ⟨555, some "alice", none, none⟩ 20).2.1 = false ∧
    (bindTelegramIdentity
        (bindTelegramIdentity ⟨[], [], 0⟩ ⟨555, some "alice", none, none⟩
          10).2.2 ⟨555, some "alice", none, none⟩ 20).1 =
      (bindTelegramIdentity ⟨[], [], 0⟩ ⟨555, some "alice", none, none⟩
        10).1 ∧
    (bindTelegramIdentity
        (bindTelegramIdentity ⟨[], [], 0⟩ ⟨555, some "alice", none, none⟩
          10).2.2 ⟨555, some "alice", none, none⟩ 20).2.2.accounts =
      (bindTelegramIdentity ⟨[], [], 0⟩ ⟨555, some "alice", none, none⟩
        10).2.2.accounts ∧
    ((bindTelegramIdentity ⟨[], [], 0⟩ ⟨555, some "alice", none, none⟩
        10).2.2.identities.find?
        (fun r => r.telegram_user_id == (555 : Nat))).map
        IdentityRow.user_id =
      some (bindTelegramIdentity ⟨[], [], 0⟩ ⟨555, some "alice", none, none⟩
        10).1 :=
  bind_twice_idempotent ⟨[], [], 0⟩ ⟨555, some "alice", none, none⟩ 10 20 rfl

theorem memberLe_iff (x y : MemberOutRow) :
    memberLe x y ↔ claimMemberOrder x y := by
  unfold memberLe memberSortKey claimMemberOrder
  rw [Prod.Lex.le_iff]
  constructor
  · rintro (h | ⟨he, h2⟩)
    · exact Or.inl h
    · rw [Prod.Lex.le_iff] at h2
      exact Or.inr ⟨he, h2⟩
  · rintro (h | ⟨he, h2⟩)
    · exact Or.inl h
    · exact Or.inr ⟨he, (Prod.Lex.le_iff _ _).mpr h2⟩

/-- C9 (with the database label collation modelled from the spec as
case-insensitive): every successful `list_workspace_members` result is a
permutation of the workspace's membership rows joined with their identity
labels, arranged pairwise according to `claimMemberOrder` — role rank
first, then case-insensitive label, then join time. -/
theorem listMembers_sorted_rows (s : DBState) (u wid : Nat)
    (out : List MemberOutRow)
    (h : list_workspace_members s (some u) wid = .ok out) :
    out.Pairwise claimMemberOrder ∧
    out.Perm ((s.members.filter fun r => r.workspace_id == wid).map
      fun r => ⟨r.user_id,
        ((s.users.find? fun usr => usr.id == r.user_id).map
          AuthUserRow.email).getD "", r.role, r.created_at⟩) := by
  by_cases hmem : is_workspace_member s u wid
  · simp only [list_workspace_members, hmem, Bool.not_true,
      Bool.false_eq_true, if_false] at h
    rw [Except.ok.injEq] at h
    subst h
    constructor
    · exact (List.sorted_insertionSort memberLe _).imp
        (fun hxy => (memberLe_iff _ _).mp hxy)
    · exact List.perm_insertionSort memberLe _
  · exfalso
    simp only [list_workspace_members, Bool.not_eq_true] at h
    rw [if_pos (by simpa using hmem)] at h
    exact absurd h (by simp)

/-- Witness for `listMembers_sorted_rows` on a three-member workspace with
mixed-case labels. -/
theorem listMembers_sorted_rows_witness :
    ([(⟨1, "Zed@x", "owner", 0⟩ : MemberOutRow), ⟨3, "Bob@x", "coach", 3⟩,
      ⟨2, "amy@x", "member", 5⟩] : List MemberOutRow).Pairwise
        claimMemberOrder ∧
    ([(⟨1, "Zed@x", "owner", 0⟩ : MemberOutRow), ⟨3, "Bob@x", "coach", 3⟩,
      ⟨2, "amy@x", "member", 5⟩] : List MemberOutRow).Perm
      (((DBState.members
          ⟨[⟨1, 1, "w"⟩],
           [⟨1, 1, "owner", 0⟩, ⟨1, 2, "member", 5⟩, ⟨1, 3, "coach", 3⟩],
           [], [⟨1, "Zed@x"⟩, ⟨2, "amy@x"⟩, ⟨3, "Bob@x"⟩]⟩).filter
          fun r => r.workspace_id == 1).map
        fun r => ⟨r.user_id,
          (((DBState.users
            ⟨[⟨1, 1, "w"⟩],
             [⟨1, 1, "owner", 0⟩, ⟨1, 2, "member", 5⟩, ⟨1, 3, "coach", 3⟩],
             [], [⟨1, "Zed@x"⟩, ⟨2, "amy@x"⟩, ⟨3, "Bob@x"⟩]⟩).find?
            fun usr => usr.id == r.user_id).map AuthUserRow.email).getD "",
          r.role, r.created_at⟩) :=
  listMembers_sorted_rows
    ⟨[⟨1, 1, "w"⟩],
     [⟨1, 1, "owner", 0⟩, ⟨1, 2, "member", 5⟩, ⟨1, 3, "coach", 3⟩],
     [], [⟨1, "Zed@x"⟩, ⟨2, "amy@x"⟩, ⟨3, "Bob@x"⟩]⟩
    1 1
    [⟨1, "Zed@x", "owner", 0⟩, ⟨3, "Bob@x", "coach", 3⟩,
     ⟨2, "amy@x", "member", 5⟩]
    (by rfl)

/-! ## C1: the HMAC chain compared by `verifyInitData` -/

set_option maxRecDepth 10000 in
/-- Validation of the SHA-256 embedding against the FIPS 180-4 test
vector. -/
theorem sha256_vector_abc :
    bytesToHex (sha256 (strBytes "abc")) =
      "ba7816bf8f01cfea414140de5dae2223b00361a396177a9cb410ff61f20015ad" := by
  decide

set_option maxRecDepth 10000 in
/-- Validation of the HMAC-SHA-256 embedding against RFC 4231 test case
2. -/
theorem hmacSha256_vector_rfc4231 :
    bytesToHex (hmacSha256 (strBytes "Jefe")
        (strBytes "what do ya want for nothing?")) =
      "5bdcc146bf60754e6a042426089575c75a003f089d2739839dec58b964ec3843" := by
  decide

set_option maxRecDepth 10000 in
/-- C1 counterexample: the hash the implementation compares against is
computed with secret key `HMAC(key="WebAppData", message=botToken)`; for
the concrete bot token `"t"` and canonical message `"a=1"` it differs from
the claim's formula `hex(HMAC(key=HMAC(key=botToken,
message="WebAppData"), message=canonicalMessage))`. -/
theorem verify_hash_ne_spec_formula :
    (bytesToHex (verifyExpectedHash (strBytes "t") (strBytes "a=1")) ==
      bytesToHex (specExpectedHash (strBytes "t") (strBytes "a=1"))) =
      false := by
  decide

theorem nat_lor_eq_zero (a b : Nat) : a ||| b = 0 ↔ a = 0 ∧ b = 0 := by
  constructor
  · intro h
    have hbit : ∀ k, a.testBit k = false ∧ b.testBit k = false := by
      intro k
      have h0 := congrArg (fun x => Nat.testBit x k) h
      simpa [Nat.testBit_lor] using h0
    constructor
    · exact Nat.eq_of_testBit_eq fun k => by simp [(hbit k).1]
    · exact Nat.eq_of_testBit_eq fun k => by simp [(hbit k).2]
  · rintro ⟨rfl, rfl⟩
    rfl

theorem foldl_lor_eq_zero (l : List Nat) (acc : Nat) :
    l.foldl (fun acc d => acc ||| d) acc = 0 ↔
      acc = 0 ∧ ∀ x ∈ l, x = 0 := by
  induction l generalizing acc with
  | nil => simp
  | cons a as ih =>
    rw [List.foldl_cons, ih]
    rw [nat_lor_eq_zero]
    constructor
    · rintro ⟨⟨h1, h2⟩, h3⟩
      exact ⟨h1, fun x hx => by
        rcases List.mem_cons.mp hx with rfl | hx'
        · exact h2
        · exact h3 x hx'⟩
    · rintro ⟨h1, h2⟩
      exact ⟨⟨h1, h2 a (List.mem_cons_self a as)⟩,
        fun x hx => h2 x (List.mem_cons_of_mem a hx)⟩

theorem zipWith_xor_zero (a b : List Nat) (hlen : a.length = b.length)
    (h : ∀ x ∈ List.zipWith (fun a b => a ^^^ b) a b, x = 0) : a = b := by
  induction a generalizing b with
  | nil =>
    cases b with
    | nil => rfl
    | cons y ys => exact absurd hlen (by simp)
  | cons x xs ih =>
    cases b with
    | nil => exact absurd hlen (by simp)
    | cons y ys =>
      rw [List.zipWith_cons_cons] at h
      have hx : x = y := Nat.xor_eq_zero.mp (h _ (List.mem_cons_self _ _))
      have hxs : xs = ys := ih ys (by simpa using hlen)
        (fun z hz => h z (List.mem_cons_of_mem _ hz))
      rw [hx, hxs]

theorem zipWith_xor_self_zero (a : List Nat) :
    ∀ x ∈ List.zipWith (fun a b => a ^^^ b) a a, x = 0 := by
  induction a with
  | nil =>
    intro x hx
    exact absurd hx (by simp)
  | cons c cs ih =>
    intro x hx
    rw [List.zipWith_cons_cons] at hx
    rcases List.mem_cons.mp hx with rfl | hx'
    · exact Nat.xor_self c
    · exact ih x hx'

/-- `constantTimeEqual` accepts exactly equal code-unit lists. -/
theorem constantTimeEqual_iff (a b : List Nat) :
    constantTimeEqual a b = true ↔ a = b := by
  unfold constantTimeEqual
  split_ifs with hlen
  · constructor
    · intro h
      exact absurd h (by simp)
    · intro h
      exact absurd (congrArg List.length h) hlen
  · rw [beq_iff_eq, foldl_lor_eq_zero]
    constructor
    · rintro ⟨-, h⟩
      exact zipWith_xor_zero a b (not_not.mp hlen) h
    · rintro rfl
      exact ⟨rfl, zipWith_xor_self_zero a⟩

/-- C1 (amended): the hash `verifyInitData` compares against is
`hex(HMAC-SHA256(key = secretKey, message = canonicalMessage))` with
`secretKey = HMAC-SHA256(key = "WebAppData", message = sharedSecret)` —
the key and message of the secret-key derivation are the reverse of the
claim — and the constant-time comparison accepts exactly the submitted
hashes whose ASCII-lower-casing equals that value. -/
theorem verify_signature_accepts_iff (botToken canonical hash : List Nat) :
    verifySignatureCheck botToken canonical hash = true ↔
      jsToLowerAscii hash =
        strBytes (bytesToHex (hmacSha256
          (hmacSha256 (strBytes "WebAppData") botToken) canonical)) := by
  unfold verifySignatureCheck verifyExpectedHash
  rw [constantTimeEqual_iff]
  exact eq_comm

theorem lcPrimary_lt_of_lt (a b : Nat) (ha : lowerKeyCode a)
    (hb : lowerKeyCode b) (hab : a < b) : lcPrimary a < lcPrimary b := by
  unfold lowerKeyCode at ha hb
  unfold lcPrimary
  split_ifs <;> omega

theorem lcTertiary_lower (a : Nat) (ha : lowerKeyCode a) :
    lcTertiary a = 0 := by
  unfold lowerKeyCode at ha
  unfold lcTertiary
  split_ifs with h
  · omega
  · rfl

/-- On keys made of lower-case letters and underscores the `localeCompare`
model agrees with byte-wise lexicographic comparison. -/
theorem localeCompare_eq_bytewise (as : List Nat) :
    ∀ bs : List Nat, (∀ c ∈ as, lowerKeyCode c) →
      (∀ c ∈ bs, lowerKeyCode c) →
      localeCompare as bs = cmpNatList as bs := by
  induction as with
  | nil =>
    intro bs _ _
    cases bs with
    | nil => rfl
    | cons b bs => rfl
  | cons a as ih =>
    intro bs ha hb
    cases bs with
    | nil => rfl
    | cons b bs =>
      have haa : lowerKeyCode a := ha a (List.mem_cons_self a as)
      have hbb : lowerKeyCode b := hb b (List.mem_cons_self b bs)
      rcases lt_trichotomy a b with hab | hab | hab
      · have hp := lcPrimary_lt_of_lt a b haa hbb hab
        simp [localeCompare, cmpNatList, hp, hab, Ordering.then]
      · subst hab
        have ht := lcTertiary_lower a haa
        have htail := ih bs (fun c hc => ha c (List.mem_cons_of_mem a hc))
          (fun c hc => hb c (List.mem_cons_of_mem a hc))
        simp only [localeCompare, List.map_cons, cmpNatList, lt_irrefl,
          if_false] at htail ⊢
        exact htail
      · have hp := lcPrimary_lt_of_lt b a hbb haa hab
        have hnp : ¬ lcPrimary a < lcPrimary b := lt_asymm hp
        have hnab : ¬ a < b := lt_asymm hab
        simp [localeCompare, cmpNatList, hp, hab, hnp, hnab, Ordering.then]

theorem mem_insertCmp {α : Type _} (cmp : α → α → Ordering) (x : α)
    (l : List α) : ∀ z ∈ insertCmp cmp x l, z = x ∨ z ∈ l := by
  induction l with
  | nil =>
    intro z hz
    rcases List.mem_singleton.mp hz with rfl
    exact Or.inl rfl
  | cons y ys ih =>
    intro z hz
    unfold insertCmp at hz
    split_ifs at hz
    · rcases List.mem_cons.mp hz with rfl | hz'
      · exact Or.inr (List.mem_cons_self _ _)
      · rcases ih z hz' with h | h
        · exact Or.inl h
        · exact Or.inr (List.mem_cons_of_mem _ h)
    · rcases List.mem_cons.mp hz with rfl | hz'
      · exact Or.inl rfl
      · exact Or.inr hz'

theorem insertCmp_congr {α : Type _} (cmp1 cmp2 : α → α → Ordering)
    (P : α → Prop) (hc : ∀ x y, P x → P y → cmp1 x y = cmp2 x y) (x : α)
    (hx : P x) : ∀ l : List α, (∀ y ∈ l, P y) →
      insertCmp cmp1 x l = insertCmp cmp2 x l := by
  intro l
  induction l with
  | nil => intro _; rfl
  | cons y ys ih =>
    intro hl
    unfold insertCmp
    rw [hc y x (hl y (List.mem_cons_self y ys)) hx]
    split_ifs
    · rw [ih fun z hz => hl z (List.mem_cons_of_mem y hz)]
    · rfl

theorem sortByCmp_congr_aux {α : Type _} (cmp1 cmp2 : α → α → Ordering)
    (P : α → Prop) (hc : ∀ x y, P x → P y → cmp1 x y = cmp2 x y) :
    ∀ (l acc : List α), (∀ x ∈ l, P x) → (∀ x ∈ acc, P x) →
      l.foldl (fun acc x => insertCmp cmp1 x acc) acc =
        l.foldl (fun acc x => insertCmp cmp2 x acc) acc := by
  intro l
  induction l with
  | nil => intro acc _ _; rfl
  | cons x xs ih =>
    intro acc hl hacc
    simp only [List.foldl_cons]
    have hx : P x := hl x (List.mem_cons_self x xs)
    rw [insertCmp_congr cmp1 cmp2 P hc x hx acc hacc]
    apply ih
    · exact fun z hz => hl z (List.mem_cons_of_mem x hz)
    · intro z hz
      rcases mem_insertCmp cmp2 x acc z hz with rfl | hz'
      · exact hx
      · exact hacc z hz'

theorem sortByCmp_congr {α : Type _} (cmp1 cmp2 : α → α → Ordering)
    (P : α → Prop) (hc : ∀ x y, P x → P y → cmp1 x y = cmp2 x y)
    (l : List α) (hl : ∀ x ∈ l, P x) :
    sortByCmp cmp1 l = sortByCmp cmp2 l :=
  sortByCmp_congr_aux cmp1 cmp2 P hc l [] hl (by intro z hz; cases hz)

/-- C2 (amended): the canonical message takes all fields except `hash`,
sorts them by key with JavaScript `localeCompare` — which agrees with
byte-wise lexicographic order when every key consists of lower-case ASCII
letters and underscores (as all real Telegram field names do), though not
for arbitrary keys — and joins them as `key=value` lines separated by a
newline. -/
theorem dataCheckString_eq_bytewise (params : List (String × String))
    (h : ∀ p ∈ params, ∀ c ∈ strBytes p.1, lowerKeyCode c) :
    dataCheckString params = specCanonicalMessage params := by
  unfold dataCheckString specCanonicalMessage
  rw [sortByCmp_congr
    (fun p q : String × String => localeCompare (strBytes p.1) (strBytes q.1))
    (fun p q : String × String => cmpNatList (strBytes p.1) (strBytes q.1))
    (fun p => ∀ c ∈ strBytes p.1, lowerKeyCode c)
    (fun x y hx hy => localeCompare_eq_bytewise (strBytes x.1)
      (strBytes y.1) hx hy)
    (params.filter fun p => p.1 ≠ "hash")
    (fun p hp => h p (List.mem_of_mem_filter hp))]

/-- Witness for `dataCheckString_eq_bytewise` on real Telegram field
names. -/
theorem dataCheckString_eq_bytewise_witness :
    dataCheckString
        [("user", "u"), ("auth_date", "1"), ("query_id", "q"),
         ("hash", "x")] =
      specCanonicalMessage
        [("user", "u"), ("auth_date", "1"), ("query_id", "q"),
         ("hash", "x")] :=
  dataCheckString_eq_bytewise
    [("user", "u"), ("auth_date", "1"), ("query_id", "q"), ("hash", "x")]
    (by decide)

/-- C2 counterexample: with keys `"a"` and `"B"` the implementation's
`localeCompare` order puts `a` before `B` while byte-wise lexicographic
order puts `B` (0x42) before `a` (0x61), so the canonical messages
differ. -/
theorem dataCheckString_locale_counterexample :
    dataCheckString [("a", "1"), ("B", "2"), ("hash", "h")] = "a=1\nB=2" ∧
    specCanonicalMessage [("a", "1"), ("B", "2"), ("hash", "h")] =
      "B=2\na=1" ∧
    (dataCheckString [("a", "1"), ("B", "2"), ("hash", "h")] ==
      specCanonicalMessage [("a", "1"), ("B", "2"), ("hash", "h")]) =
      false := by
  refine ⟨by decide, by decide, by decide⟩
